import Mathlib

/-!
Verification of the firestore-lift client library.

We give a shallow embedding of the library's data model and operations:

* `JsonVal` models the plain JavaScript values (strings, numbers, booleans and
  nested objects) that documents, update payloads and shape-objects are made
  of.  Objects are modelled as chains `ocons k v rest`, mirroring a JS
  object's ordered key/value fields (`onil` is the empty object).
* `WriteVal` models values handed to the backend after sentinel substitution:
  the same shapes plus the field-operator directives (`FieldValue.delete()`
  and `FieldValue.increment(n)`).
* The path resolver (`generateFirestorePathFromObject`), the sentinel
  substitution functions, the batch compiler (`executeBatch`) plus a document
  store semantics, the query fingerprinting (`stringifyQuery`), pagination
  (`queryPaginate`), bulk get, the stats counters, and the subscription
  registry (`LiftState` with its operations and step relation) are each
  translated from the corresponding source functions.
-/


/-- JavaScript-style values: scalars and ordered-field objects.
`ocons k v rest` is an object whose first field is `k : v` and whose remaining
fields are given by `rest` (normally ending in `onil`). -/
inductive JsonVal where
  | str (s : String)
  | num (n : Int)
  | bool (b : Bool)
  | onil
  | ocons (k : String) (v : JsonVal) (rest : JsonVal)
deriving DecidableEq, Repr

namespace JsonVal

/-- Models `typeof v === "object"` for our value model. -/
def isObj : JsonVal → Bool
  | .onil => true
  | .ocons _ _ _ => true
  | _ => false

/-- Scalar test (string / number / boolean leaf). -/
def isScalar : JsonVal → Bool
  | .str _ => true
  | .num _ => true
  | .bool _ => true
  | _ => false

end JsonVal

/-- Look up field `key` in an object value (first match; `none` on scalars,
missing keys, and the empty object) — models `obj[key]` access. -/
def getF : JsonVal → String → Option JsonVal
  | .ocons k v r, key => if k = key then some v else getF r key
  | _, _ => none

/-- Set field `key` to `nv`, replacing an existing binding in place or
appending a new one at the end (JS object assignment). A scalar receiver is
replaced by a fresh single-field object (how the backend materialises maps
along a dotted path). -/
def putF : JsonVal → String → JsonVal → JsonVal
  | .ocons k v r, key, nv => if k = key then .ocons key nv r else .ocons k v (putF r key nv)
  | .onil, key, nv => .ocons key nv .onil
  | _, key, nv => .ocons key nv .onil

/-- Remove every binding of `key` from an object value (`delete obj[key]` /
the backend's field-delete). -/
def delF : JsonVal → String → JsonVal
  | .ocons k v r, key => if k = key then delF r key else .ocons k v (delF r key)
  | v, _ => v

/-- Set (`some nv`) or remove (`none`) field `key`. -/
def setF (v : JsonVal) (key : String) : Option JsonVal → JsonVal
  | some nv => putF v key nv
  | none => delF v key

/-- Navigate a value along a list of keys (the parsed form of a dotted
Firestore field path). `getAtPath v [] = some v`. -/
def getAtPath : JsonVal → List String → Option JsonVal
  | v, [] => some v
  | v, k :: ks =>
    match getF v k with
    | some c => getAtPath c ks
    | none => none

/-- The backend's targeted write at a dotted field path: replace
(`some`) or delete (`none`) the value at `ks`, creating intermediate maps as
needed and leaving everything else in place. -/
def setAtKeys : JsonVal → List String → Option JsonVal → JsonVal
  | doc, [], nv => nv.getD doc
  | doc, [k], nv => setF doc k nv
  | doc, k :: k' :: ks, nv =>
    putF doc k (setAtKeys ((getF doc k).getD .onil) (k' :: ks) nv)

/-- Boolean prefix test on key paths (`p` is an initial segment of `q`). -/
def keyPref : List String → List String → Bool
  | [], _ => true
  | _ :: _, [] => false
  | a :: as, b :: bs => a = b && keyPref as bs

/-- JS truthiness of an optional field value (`!obj[k]`). -/
def jsFalsy : Option JsonVal → Bool
  | none => true
  | some (.str s) => s = ""
  | some (.num n) => n = 0
  | some (.bool b) => !b
  | some _ => false

-- ### Sentinel markers and backend write values

/-- Reserved delete marker (src/models: `MagicDeleteString`). -/
def MagicDeleteString : String := "____DELETE_DELETE_DELETE_DELETE____"

/-- Reserved increment marker (src/models: `MagicIncrementString`). -/
def MagicIncrementString : String := "____INCREMENT_INCREMENT_INCREMENT____"

/-- Values handed to the backend write API: JS values in which some positions
may carry field-operator directives (`FieldValue.delete()` /
`FieldValue.increment(n)`). -/
inductive WriteVal where
  | str (s : String)
  | num (n : Int)
  | bool (b : Bool)
  | wdel
  | winc (n : Int)
  | onil
  | ocons (k : String) (v : WriteVal) (rest : WriteVal)
deriving DecidableEq, Repr

/-- Embed a plain value as a directive-free write value. -/
def liftW : JsonVal → WriteVal
  | .str s => .str s
  | .num n => .num n
  | .bool b => .bool b
  | .onil => .onil
  | .ocons k v r => .ocons k (liftW v) (liftW r)

/-- Read back a directive-free write value as a plain value (`none` when a
directive occurs anywhere, which the backend rejects inside a literal). -/
def writeToJson : WriteVal → Option JsonVal
  | .str s => some (.str s)
  | .num n => some (.num n)
  | .bool b => some (.bool b)
  | .wdel => none
  | .winc _ => none
  | .onil => some .onil
  | .ocons k v r => do
    let v' ← writeToJson v
    let r' ← writeToJson r
    some (.ocons k v' r')

/-- Returns `true` when no string anywhere in the value equals a sentinel marker. -/
def noSentinels : JsonVal → Bool
  | .str s => s ≠ MagicDeleteString && s ≠ MagicIncrementString
  | .num _ => true
  | .bool _ => true
  | .onil => true
  | .ocons _ v r => noSentinels v && noSentinels r

/-- Field lookup on write values (mirrors `getF`). -/
def getWF : WriteVal → String → Option WriteVal
  | .ocons k v r, key => if k = key then some v else getWF r key
  | _, _ => none

/-- Path navigation on write values (mirrors `getAtPath`). -/
def getWAtPath : WriteVal → List String → Option WriteVal
  | v, [] => some v
  | v, k :: ks =>
    match getWF v k with
    | some c => getWAtPath c ks
    | none => none

/-- Modelled from the spec: the Sentinel Substitution Engine of the newer
batch runner is not among the provided sources (only the
`MagicIncrementString` / `MagicDeleteString` declarations and the callers
are), so this definition follows §4.4 of the spec: recursively walk a nested
mapping, replace every leaf equal to the delete sentinel by a field-delete
directive and every leaf equal to the increment sentinel by an
increment-by-1 directive, leave other scalars untouched, recurse into nested
mappings, and also substitute a bare top-level scalar sentinel. -/
def checkForMagicStrings : JsonVal → WriteVal
  | .str s =>
    if s = MagicDeleteString then .wdel
    else if s = MagicIncrementString then .winc 1
    else .str s
  | .num n => .num n
  | .bool b => .bool b
  | .onil => .onil
  | .ocons k v r => .ocons k (checkForMagicStrings v) (checkForMagicStrings r)

/-- Substitution applied to the values sitting inside an object, following
`BatchRunner.checkForMagicDeleteString`'s loop body: a child equal to the
delete sentinel becomes a delete directive, a child object is walked
recursively, any other child is left as is. -/
def checkDeleteInner : JsonVal → WriteVal
  | .str s => if s = MagicDeleteString then .wdel else .str s
  | .num n => .num n
  | .bool b => .bool b
  | .onil => .onil
  | .ocons k v r => .ocons k (checkDeleteInner v) (checkDeleteInner r)

/-- The source function `BatchRunner.checkForMagicDeleteString`: substitution is
performed only when the argument is an object (`typeof obj === "object"`); a
bare scalar — even a sentinel — is returned unchanged, and only the delete
sentinel is recognised. -/
def checkForMagicDeleteString (v : JsonVal) : WriteVal :=
  if v.isObj then checkDeleteInner v else liftW v

-- ### The path resolver (src/misc: generateFirestorePathFromObject)

/-- Returns `true` when an object value has at least one (more) field, i.e. the JS
`Object.keys(obj).length > 1` test on the level that owns this tail. -/
def hasMoreFields : JsonVal → Bool
  | .ocons _ _ _ => true
  | _ => false

/-- The path resolver from the sources: starting from a shape-object it
descends into the first field of each level, accumulating the traversed keys,
until a scalar leaf is reached.  The result carries the dotted path string
(`acc.join "."`), the traversed key list, the leaf value found, and a flag
recording whether any level had more than one key (the source logs a
`console.warn` in that case but continues with the first key).  An empty
object level yields `none` (the source would crash there). -/
def generateFirestorePathFromObject : JsonVal → List String → Option (String × List String × JsonVal × Bool)
  | .str s, acc => some (String.intercalate "." acc, acc, .str s, false)
  | .num n, acc => some (String.intercalate "." acc, acc, .num n, false)
  | .bool b, acc => some (String.intercalate "." acc, acc, .bool b, false)
  | .onil, _ => none
  | .ocons k v r, acc =>
    match generateFirestorePathFromObject v (acc ++ [k]) with
    | some (p, ks, leaf, w) => some (p, ks, leaf, w || hasMoreFields r)
    | none => none

/-- Predicate `FirstTrail ks v w o`: shape-object `o` reaches the scalar leaf `v` along
the keys `ks` when one always follows the first field of every level;
`w` records whether some level on the way had more than one field. -/
inductive FirstTrail : List String → JsonVal → Bool → JsonVal → Prop where
  | leaf (v : JsonVal) (h : v.isScalar = true) : FirstTrail [] v false v
  | single (k : String) {ks : List String} {v : JsonVal} {w : Bool} (sub : JsonVal)
      (h : FirstTrail ks v w sub) : FirstTrail (k :: ks) v w (.ocons k sub .onil)
  | multi (k : String) {ks : List String} {v : JsonVal} {w : Bool} (sub : JsonVal)
      (k2 : String) (v2 r2 : JsonVal) (h : FirstTrail ks v w sub) :
      FirstTrail (k :: ks) v true (.ocons k sub (.ocons k2 v2 r2))

-- ### The document store and the batch compiler

/-- The remote document store: collection name and document id to document. -/
def Store := String → String → Option JsonVal

/-- Point update of the store (the backend committing one document write). -/
def Store.upd (s : Store) (c i : String) (v : Option JsonVal) : Store :=
  fun c' i' => if c' = c && i' = i then v else s c' i'

/-- Resolved backend write operations sitting in an atomic batch. -/
inductive WriteOp where
  | set (c i : String) (doc : JsonVal)
  | updateFields (c i : String) (w : WriteVal)
  | mergeSet (c i : String) (w : WriteVal)
  | setField (c i : String) (ks : List String) (w : WriteVal)
  | del (c i : String)
deriving DecidableEq, Repr

/-- The backend's targeted single-field write `batch.update(ref, path, v)`:
a delete directive removes the path, an increment directive adds to the
number stored there (or installs the operand), and any directive-free value
fully replaces whatever was at the path. -/
def applyFieldWrite (doc : JsonVal) (ks : List String) : WriteVal → Except String JsonVal
  | .wdel => .ok (setAtKeys doc ks none)
  | .winc n =>
    .ok (setAtKeys doc ks (some (.num (match getAtPath doc ks with
      | some (.num m) => m + n
      | _ => n))))
  | w =>
    match writeToJson w with
    | some j => .ok (setAtKeys doc ks (some j))
    | none => .error "invalid nested field directive"

/-- The backend's recursive merge write `batch.set(ref, v, {merge: true})`:
directives apply at their field, nested objects merge field by field, scalars
replace. -/
def mergeW : JsonVal → WriteVal → JsonVal
  | old, .ocons k wv wr =>
    let old' := match wv with
      | .wdel => delF old k
      | .winc n =>
        putF old k (.num (match getF old k with
          | some (.num m) => m + n
          | _ => n))
      | .str s => putF old k (.str s)
      | .num n => putF old k (.num n)
      | .bool b => putF old k (.bool b)
      | w =>
        putF old k (mergeW (match getF old k with
          | some c => if c.isObj then c else .onil
          | none => .onil) w)
    mergeW old' wr
  | old, _ => old

/-- The backend's field-map update `batch.update(ref, obj)`: every top-level
field of the payload is applied to the document — directives delete or
increment, other values replace the field. -/
def updFields : JsonVal → WriteVal → Except String JsonVal
  | old, .onil => .ok old
  | old, .ocons k wv wr => do
    let old' ← match wv with
      | .wdel => Except.ok (delF old k)
      | .winc n =>
        Except.ok (putF old k (.num (match getF old k with
          | some (.num m) => m + n
          | _ => n)))
      | w =>
        match writeToJson w with
        | some j => Except.ok (putF old k j)
        | none => Except.error "invalid nested field directive"
    updFields old' wr
  | _, _ => .error "update payload must be an object"

/-- Apply one committed write operation to the store.  `update`-family
operations fail on a missing document, which fails the whole batch commit. -/
def applyOp (s : Store) : WriteOp → Except String Store
  | .set c i d => .ok (s.upd c i (some d))
  | .updateFields c i w =>
    match s c i with
    | some old => (updFields old w).map (fun d => s.upd c i (some d))
    | none => .error "update on missing document"
  | .mergeSet c i w => .ok (s.upd c i (some (mergeW ((s c i).getD .onil) w)))
  | .setField c i ks w =>
    match s c i with
    | some old => (applyFieldWrite old ks w).map (fun d => s.upd c i (some d))
    | none => .error "update on missing document"
  | .del c i => .ok (s.upd c i none)

/-- Commit a batch: apply all operations in order; any failure fails the
whole commit (the backend guarantees atomicity, spec §7). -/
def commitOps : List WriteOp → Store → Except String Store
  | [], s => .ok s
  | op :: ops, s => do commitOps ops (← applyOp s op)

/-- Task descriptors accepted by `BatchRunner.executeBatch`. -/
inductive BatchTask where
  | add (collection id : String) (doc : JsonVal)
  | shallowUpdate (collection id : String) (doc : JsonVal)
  | update (collection id : String) (doc : JsonVal)
  | setPath (collection id : String) (pathObj : JsonVal) (value : JsonVal)
  | del (collection id : String)
  | empty (collection id : String)
deriving DecidableEq, Repr

/-- The task's `id` field (`""` models a missing / falsy id). -/
def BatchTask.taskId : BatchTask → String
  | .add _ i _ => i
  | .shallowUpdate _ i _ => i
  | .update _ i _ => i
  | .setPath _ i _ _ => i
  | .del _ i => i
  | .empty _ i => i

/-- The task's `collection` field. -/
def BatchTask.coll : BatchTask → String
  | .add c _ _ => c
  | .shallowUpdate c _ _ => c
  | .update c _ _ => c
  | .setPath c _ _ _ => c
  | .del c _ => c
  | .empty c _ => c

/-- Returns `true` exactly for the `empty` placeholder task. -/
def BatchTask.isEmptyTask : BatchTask → Bool
  | .empty _ _ => true
  | _ => false

/-- The uniform `BatchTaskEmpty` value `executeBatch` returns on success. -/
def emptyTaskResult : BatchTask := .empty "empty" ""

/-- Modelled from the spec: the `setPath` arm of the batch compiler.  The
newer `BatchRunner` that processes `setPath` tasks is not among the provided
sources (only the `BatchTaskSetPath` declaration and its caller
`FirestoreLift.setPath` are), so this follows §4.1/§4.3 of the spec: the
Path Resolver extracts the single target dotted path from the path-shape,
the same traversal extracts the corresponding replacement sub-value from the
companion value-object, the replacement passes through sentinel
substitution, and the backend performs a single targeted field write at that
path. -/
def compileSetPath (c i : String) (pathObj value : JsonVal) : Except String WriteOp :=
  match generateFirestorePathFromObject pathObj [] with
  | some (_, ks, _, _) =>
    match getAtPath value ks with
    | some sub => .ok (.setField c i ks (checkForMagicStrings sub))
    | none => .error "setPath value does not contain the resolved path"
  | none => .error "invalid path object"

/-- Resolve one non-empty task into its backend write operation
(`executeBatch`'s switch). -/
def compileNonEmpty : BatchTask → Except String WriteOp
  | .add c i d => .ok (.set c i d)
  | .shallowUpdate c i d => .ok (.updateFields c i (checkForMagicDeleteString d))
  | .update c i d => .ok (.mergeSet c i (checkForMagicDeleteString d))
  | .setPath c i po v => compileSetPath c i po v
  | .del c i => .ok (.del c i)
  | .empty _ _ => .error "unreachable: empty tasks are skipped"

/-- The `executeBatch` task loop: skip `empty` tasks, fail on a missing id
before resolving the task, otherwise enqueue the resolved operation. -/
def compileTasks : List BatchTask → Except String (List WriteOp)
  | [] => .ok []
  | .empty _ _ :: ts => compileTasks ts
  | t :: ts =>
    if t.taskId = "" then
      .error ("Unable to process item. Lacks an id. Collection: " ++ t.coll)
    else do
      let op ← compileNonEmpty t
      let ops ← compileTasks ts
      pure (op :: ops)

/-- The source method `BatchRunner.executeBatch`: resolve every task into one shared batch and
commit it atomically; on success return the uniform empty task. -/
def executeBatch (b : List BatchTask) (store : Store) : Except String (Store × BatchTask) := do
  let ops ← compileTasks b
  let store' ← commitOps ops store
  pure (store', emptyTaskResult)

/-- The result of `executeBatch` seen from the caller: on a thrown error the backend store
is unchanged (nothing was committed). -/
def executeBatchTotal (b : List BatchTask) (store : Store) : Store × Except String BatchTask :=
  match executeBatch b store with
  | .ok (s', r) => (s', .ok r)
  | .error e => (store, .error e)

-- ### FirestoreLift write helpers and the stats counter

/-- The `docsWritten` process-lifetime counter of `FirestoreLift._stats`. -/
structure WStats where
  docsWritten : Nat
deriving DecidableEq, Repr

/-- The `id` property of an item, read as the task id (`""` when absent or
not a string, modelling a falsy/undefined id). -/
def idOfItem (item : JsonVal) : String :=
  match getF item "id" with
  | some (.str s) => s
  | _ => ""

/-- The method `FirestoreLift.add`: optionally auto-assign an id, consult the schema
validator (modelled as the boolean oracle `validationOk`, spec §6), construct
the task, bump `docsWritten`, then either hand back the task or execute it
in a single-task batch. -/
def addM (coll : String) (addIdDefault : Bool) (genId : String) (validationOk : Bool)
    (item : JsonVal) (returnTask : Bool) (st : WStats) (store : Store) :
    WStats × Store × Except String BatchTask :=
  let item := if addIdDefault && jsFalsy (getF item "id") then putF item "id" (.str genId) else item
  if validationOk = false then
    (st, store, .error ("Unable to add item. Schema does not match. Collection: " ++ coll))
  else
    let task : BatchTask := .add coll (idOfItem item) item
    let st := ⟨st.docsWritten + 1⟩
    if returnTask then (st, store, .ok task)
    else
      let (store', r) := executeBatchTotal [task] store
      (st, store', r)

/-- The method `FirestoreLift.update`: construct the merge task, bump `docsWritten`,
then either hand back the task or execute it. -/
def updateM (coll id : String) (item : JsonVal) (returnTask : Bool)
    (st : WStats) (store : Store) : WStats × Store × Except String BatchTask :=
  let task : BatchTask := .update coll id item
  let st : WStats := ⟨st.docsWritten + 1⟩
  if returnTask then (st, store, .ok task)
  else
    let (store', r) := executeBatchTotal [task] store
    (st, store', r)

/-- The method `FirestoreLift.setPath`: construct the targeted-write task, bump
`docsWritten`, then either hand back the task or execute it. -/
def setPathM (coll id : String) (pathObj value : JsonVal) (returnTask : Bool)
    (st : WStats) (store : Store) : WStats × Store × Except String BatchTask :=
  let task : BatchTask := .setPath coll id pathObj value
  let st : WStats := ⟨st.docsWritten + 1⟩
  if returnTask then (st, store, .ok task)
  else
    let (store', r) := executeBatchTotal [task] store
    (st, store', r)

/-- The method `FirestoreLift.delete`: construct the delete task, bump `docsWritten`,
then either hand back the task or execute it. -/
def deleteM (coll id : String) (returnTask : Bool) (st : WStats) (store : Store) :
    WStats × Store × Except String BatchTask :=
  let task : BatchTask := .del coll id
  let st : WStats := ⟨st.docsWritten + 1⟩
  if returnTask then (st, store, .ok task)
  else
    let (store', r) := executeBatchTotal [task] store
    (st, store', r)

-- ### One-shot query pagination (FirestoreLift.query)

/-- A fetched backend document: its snapshot id and its data. -/
structure SnapDoc where
  id : String
  data : JsonVal
deriving DecidableEq, Repr

/-- The constant `defaultQueryLimit` from src/misc: applied to the backend query when the
request leaves `limit` unspecified. -/
def defaultQueryLimit : Nat := 1000

/-- A cursor element of `startAt`/`endAt`/`startAfter`/`endBefore`: a
string, a number, or an object reference carrying an `id`. -/
inductive CursorVal where
  | str (s : String)
  | num (n : Int)
  | obj (id : String) (payload : JsonVal)
deriving DecidableEq, Repr

/-- A query description (`SimpleQuery`), with the fields `stringifyQuery`
serialises.  Optional fields model keys absent from the JS object; the JSON
key order is canonicalised to the declaration order here. -/
structure SimpleQueryQ where
  limit : Option Nat
  whereClauses : Option (List JsonVal)
  orderBy : Option (List (JsonVal × Option String))
  startAt : Option (List CursorVal)
  endAt : Option (List CursorVal)
  startAfter : Option (List CursorVal)
  endBefore : Option (List CursorVal)
  internalStartAfterDocId : Option String
deriving DecidableEq, Repr

/-- The pagination tail of `FirestoreLift.query`: given the request and the
fetched page, decide whether to attach a continuation query.  The source
compares `res.size === queryRequest.limit` — against the *request's* `limit`
field, which is `undefined` when the caller left it out.  On a size match
the continuation is a copy of the request whose `_internalStartAfterDocId`
is the last page item's id (`res.docs[res.docs.length - 1]` crashes on an
empty page, modelled by `none`). -/
def queryPaginate (q : SimpleQueryQ) (docs : List SnapDoc) :
    Option (List SnapDoc × Option SimpleQueryQ) :=
  if some docs.length = q.limit then
    match docs.getLast? with
    | some last => some (docs, some { q with internalStartAfterDocId := some last.id })
    | none => none
  else
    some (docs, none)

-- ### Bulk get (FirestoreLift.get)

/-- Lexicographic comparison of character sequences by code point — the
semantics of the JS `>` / `<` operators on strings (modulo surrogate
pairs). -/
def lexLe : List Char → List Char → Bool
  | [], _ => true
  | _ :: _, [] => false
  | c :: cs, d :: ds =>
    if c.toNat < d.toNat then true
    else if d.toNat < c.toNat then false
    else lexLe cs ds

/-- The comparator of `FirestoreLift.get`'s result sort, as an ordering
relation: `a` may precede `b` when `a`'s id is at least `b`'s
(`(a, b) => a["id"] > b["id"] ? -1 : 1`, descending by id). -/
def byIdDesc (a b : SnapDoc) : Prop := lexLe b.id.data a.id.data = true

instance : DecidableRel byIdDesc := fun a b => by
  unfold byIdDesc
  infer_instance

instance : IsTotal SnapDoc byIdDesc := by
  constructor
  intro a b
  show lexLe b.id.data a.id.data = true ∨ lexLe a.id.data b.id.data = true
  generalize b.id.data = xs
  generalize a.id.data = ys
  induction xs generalizing ys with
  | nil => exact .inl rfl
  | cons c cs ih =>
    cases ys with
    | nil => exact .inr rfl
    | cons d ds =>
      by_cases h1 : c.toNat < d.toNat
      · exact .inl (by simp [lexLe, h1])
      · by_cases h2 : d.toNat < c.toNat
        · exact .inr (by simp [lexLe, h2])
        · rcases ih ds with h | h
          · exact .inl (by simp [lexLe, h1, h2, h])
          · exact .inr (by simp [lexLe, h1, h2, h])

instance : IsTrans SnapDoc byIdDesc := by
  constructor
  intro a b c hab hbc
  show lexLe c.id.data a.id.data = true
  have h1 : lexLe c.id.data b.id.data = true := hbc
  have h2 : lexLe b.id.data a.id.data = true := hab
  revert h1 h2
  generalize c.id.data = xs
  generalize b.id.data = ys
  generalize a.id.data = zs
  intro h1 h2
  induction xs generalizing ys zs with
  | nil => rfl
  | cons x xs ih =>
    cases ys with
    | nil => simp [lexLe] at h1
    | cons y ys' =>
      cases zs with
      | nil => simp [lexLe] at h2
      | cons z zs' =>
        simp only [lexLe] at h1 h2 ⊢
        by_cases hxy : x.toNat < y.toNat
        · by_cases hyz : y.toNat < z.toNat
          · have hxz : x.toNat < z.toNat := Nat.lt_trans hxy hyz
            simp [hxz]
          · by_cases hzy : z.toNat < y.toNat
            · simp [hyz, hzy] at h2
            · have hxz : x.toNat < z.toNat := by omega
              simp [hxz]
        · by_cases hyx : y.toNat < x.toNat
          · simp [hxy, hyx] at h1
          · by_cases hyz : y.toNat < z.toNat
            · have hxz : x.toNat < z.toNat := by omega
              simp [hxz]
            · by_cases hzy : z.toNat < y.toNat
              · simp [hyz, hzy] at h2
              · have h1' : lexLe xs ys' = true := by simpa [hxy, hyx] using h1
                have h2' : lexLe ys' zs' = true := by simpa [hyz, hzy] using h2
                have hxz1 : ¬x.toNat < z.toNat := by omega
                have hxz2 : ¬z.toNat < x.toNat := by omega
                simp [hxz1, hxz2, ih ys' zs' h1' h2']

/-- The tail of `FirestoreLift.get` after the per-id fetches resolved: `arrived` is the
list of found documents in completion order, `missingIds` the ids that
resolved to no document.  The found documents are sorted descending by id;
then missing ids either throw an aggregate error or, under
`ignoreMissingIds`, are only warned about. -/
def getOp (arrived : List SnapDoc) (missingIds : List String) (ignoreMissing : Bool) :
    Except String (List SnapDoc) :=
  let docs := arrived.insertionSort byIdDesc
  if missingIds ≠ [] && !ignoreMissing then
    .error ("Unable to find docs for the following ids " ++ String.intercalate "," missingIds)
  else
    .ok docs

-- ### Query fingerprinting (FirestoreLift: stringifyQuery, md5)

/-- JSON string escaping for quotes and backslashes. -/
def jsonEscape (s : String) : String :=
  s.foldl (fun acc c =>
    if c = '"' then acc ++ "\\\""
    else if c = '\\' then acc ++ "\\\\"
    else acc.push c) ""

/-- A quoted JSON string literal. -/
def jsonQuote (s : String) : String := "\"" ++ jsonEscape s ++ "\""

/-- A model of `JSON.stringify` for our values.  The first component renders the
value, the second renders an object chain's comma-separated field list. -/
def renderJ : JsonVal → String × String
  | .str s => (jsonQuote s, "")
  | .num n => (toString n, "")
  | .bool b => (if b then "true" else "false", "")
  | .onil => ("\x7b\x7d", "")
  | .ocons k v r =>
    let entry := jsonQuote k ++ ":" ++ (renderJ v).1
    let fields := if hasMoreFields r then entry ++ "," ++ (renderJ r).2 else entry
    ("\x7b" ++ fields ++ "\x7d", fields)

/-- The `JSON.stringify` rendering of a plain value. -/
def renderJson (v : JsonVal) : String := (renderJ v).1

/-- The `scrub` helper of `stringifyQuery`: a cursor element that is neither a string
nor a number is replaced by its `id`. -/
def scrub : CursorVal → CursorVal
  | .obj i _ => .str i
  | v => v

/-- Render a (scrubbed) cursor element. -/
def renderCursor : CursorVal → String
  | .str s => jsonQuote s
  | .num n => toString n
  | .obj i _ => jsonQuote i

/-- Render a JSON array from rendered elements. -/
def renderArr (elems : List String) : String :=
  "[" ++ String.intercalate "," elems ++ "]"

/-- Render one `orderBy` entry (`{pathObj, dir?}`). -/
def renderOrderBy : JsonVal × Option String → String
  | (po, none) => "\x7b" ++ jsonQuote "pathObj" ++ ":" ++ renderJson po ++ "\x7d"
  | (po, some d) =>
    "\x7b" ++ jsonQuote "pathObj" ++ ":" ++ renderJson po ++ "," ++
      jsonQuote "dir" ++ ":" ++ jsonQuote d ++ "\x7d"

/-- Render an optional key (JSON.stringify drops keys whose value is
`undefined`). -/
def renderOptKey {α : Type} (name : String) (render : α → String) : Option α → List String
  | none => []
  | some v => [jsonQuote name ++ ":" ++ render v]

/-- Renders `JSON.stringify` of the spread query object over the canonical key order. -/
def renderQuery (q : SimpleQueryQ) : String :=
  "\x7b" ++ String.intercalate "," (
    renderOptKey "limit" (fun n => toString n) q.limit ++
    renderOptKey "where" (fun l => renderArr (l.map renderJson)) q.whereClauses ++
    renderOptKey "orderBy" (fun l => renderArr (l.map renderOrderBy)) q.orderBy ++
    renderOptKey "startAt" (fun l => renderArr (l.map renderCursor)) q.startAt ++
    renderOptKey "endAt" (fun l => renderArr (l.map renderCursor)) q.endAt ++
    renderOptKey "startAfter" (fun l => renderArr (l.map renderCursor)) q.startAfter ++
    renderOptKey "endBefore" (fun l => renderArr (l.map renderCursor)) q.endBefore ++
    renderOptKey "_internalStartAfterDocId" id q.internalStartAfterDocId) ++ "\x7d"

/-- The source function `stringifyQuery`: scrub every cursor element of the
four cursor fields down to its identifier, `JSON.stringify` the resulting
object, and stringify that string once more. -/
def stringifyQuery (q : SimpleQueryQ) : String :=
  let scrubbed : SimpleQueryQ := { q with
    endAt := q.endAt.map (List.map scrub),
    endBefore := q.endBefore.map (List.map scrub),
    startAt := q.startAt.map (List.map scrub),
    startAfter := q.startAfter.map (List.map scrub) }
  jsonQuote (renderQuery scrubbed)

-- ### The subscription registry (FirestoreLift.docSubscription / querySubscription)

/-- One registry entry of `firestoreSubscriptions`: registered delivery
callbacks and error callbacks (named by their process-unique subscription
ids), and the last broadcast value.  Holding the entry implies owning the
backend unsubscribe handle. -/
structure SubEntry (V : Type) where
  fns : List Nat
  errorFns : List Nat
  currentValue : Option V
deriving DecidableEq, Repr

/-- The whole subscription-multiplexer state: the registry (keyed by
fingerprint), `firestoreSubscriptionIdCounter`, the number of live backend
listeners per fingerprint, `totalSubscriptionsOverTime`, the number of
invocations of stored backend unsubscribe handles, and the chronological
log of callback deliveries `(subscriptionId, value)`. -/
structure LiftState (V : Type) where
  subs : String → Option (SubEntry V)
  counter : Nat
  live : String → Nat
  totalSubs : Nat
  unsubCalls : Nat
  deliveries : List (Nat × V)

/-- The state at client construction. -/
def initLiftState (V : Type) : LiftState V :=
  ⟨fun _ => none, 1, fun _ => 0, 0, 0, []⟩

/-- Point update of the registry map. -/
def setEntry {V : Type} (f : String → Option (SubEntry V)) (fp : String)
    (e : Option (SubEntry V)) : String → Option (SubEntry V) :=
  fun fp' => if fp' = fp then e else f fp'

/-- The `subscribe(fn, errorFn?)` call on the subscription object for fingerprint
`fp`: take a fresh unique subscription id; if no registry entry exists,
attach one backend listener, create the entry and register the callback;
otherwise deliver the cached last value (if any) to the new callback only,
then register it into the existing entry.  Returns the new state and the
unique id (used later to unsubscribe). -/
def subscribeOp {V : Type} (fp : String) (hasErrorFn : Bool) (s : LiftState V) :
    LiftState V × Nat :=
  let uid := s.counter
  match s.subs fp with
  | none =>
    (⟨setEntry s.subs fp (some ⟨[uid], if hasErrorFn then [uid] else [], none⟩),
      s.counter + 1,
      fun fp' => if fp' = fp then s.live fp' + 1 else s.live fp',
      s.totalSubs + 1, s.unsubCalls, s.deliveries⟩, uid)
  | some e =>
    (⟨setEntry s.subs fp (some ⟨e.fns ++ [uid],
        if hasErrorFn then e.errorFns ++ [uid] else e.errorFns, e.currentValue⟩),
      s.counter + 1, s.live, s.totalSubs, s.unsubCalls,
      match e.currentValue with
      | some v => s.deliveries ++ [(uid, v)]
      | none => s.deliveries⟩, uid)

/-- The method `unregisterSubscription`: with no entry for the fingerprint this is a
warned no-op.  Otherwise remove the handle's callbacks; if no delivery
callback remains, invoke the stored backend unsubscribe handle and delete
the entry. -/
def unsubscribeOp {V : Type} (fp : String) (uid : Nat) (s : LiftState V) : LiftState V :=
  match s.subs fp with
  | none => s
  | some e =>
    let fns' := e.fns.filter (fun u => u ≠ uid)
    let errs' := e.errorFns.filter (fun u => u ≠ uid)
    if fns'.isEmpty then
      { s with subs := setEntry s.subs fp none,
               live := fun fp' => if fp' = fp then s.live fp' - 1 else s.live fp',
               unsubCalls := s.unsubCalls + 1 }
    else
      { s with subs := setEntry s.subs fp (some ⟨fns', errs', e.currentValue⟩) }

/-- A backend snapshot event for fingerprint `fp` (only live listeners
produce events; the single-threaded model delivers them only while the
entry exists): cache the value as `currentValue`, then deliver it to every
registered callback. -/
def eventOp {V : Type} (fp : String) (v : V) (s : LiftState V) : LiftState V :=
  match s.subs fp with
  | none => s
  | some e =>
    { s with subs := setEntry s.subs fp (some ⟨e.fns, e.errorFns, some v⟩),
             deliveries := s.deliveries ++ e.fns.map (fun u => (u, v)) }

/-- One observable step of the multiplexer. -/
inductive LiftStep (V : Type) : LiftState V → LiftState V → Prop where
  | subscribe (fp : String) (ef : Bool) (s : LiftState V) : LiftStep V s (subscribeOp fp ef s).1
  | unsubscribe (fp : String) (uid : Nat) (s : LiftState V) : LiftStep V s (unsubscribeOp fp uid s)
  | event (fp : String) (v : V) (s : LiftState V) : LiftStep V s (eventOp fp v s)

/-- States reachable from client construction. -/
def ReachableState (V : Type) (s : LiftState V) : Prop :=
  Relation.ReflTransGen (LiftStep V) (initLiftState V) s

/-- The registry/listener bookkeeping invariant: a fingerprint has exactly
one live backend listener when its entry exists and none otherwise, and all
ids ever handed out are below the counter. -/
def StateOK {V : Type} (s : LiftState V) : Prop :=
  (∀ fp, s.live fp = if (s.subs fp).isSome then 1 else 0) ∧
  1 ≤ s.counter ∧
  (∀ d ∈ s.deliveries, d.1 < s.counter) ∧
  (∀ fp e, s.subs fp = some e →
    (∀ u ∈ e.fns, u < s.counter) ∧ (∀ u ∈ e.errorFns, u < s.counter))


-- ### Concrete demonstration values (used by the witnesses below)

/-- The person document `p4` from the repository's test data. -/
def demoDoc : JsonVal :=
  .ocons "id" (.str "p4") (.ocons "name" (.str "Elaine")
    (.ocons "favFoods" (.ocons "american" (.str "burger")
      (.ocons "asian" (.str "sushi") (.ocons "italian" (.str "pizza") .onil))) .onil))

/-- A one-document store holding `demoDoc` at `person/p4`. -/
def demoStore : Store :=
  fun c i => if c = "person" && i = "p4" then some demoDoc else none

/-- The `setPath` shape-object from the test: `{favFoods: true}`. -/
def favPathObj : JsonVal := .ocons "favFoods" (.bool true) .onil

/-- The replacement sub-value for `favFoods`. -/
def favReplacement : JsonVal :=
  .ocons "american" (.str "yummy hot dog") (.ocons "asian" (.str "yummy sushi") .onil)

/-- The `setPath` companion value-object `{favFoods: {...}}`. -/
def favValue : JsonVal := .ocons "favFoods" favReplacement .onil

/-- An update payload with a delete-sentinel leaf and an increment-sentinel
leaf under `favFoods`. -/
def demoPayload : JsonVal :=
  .ocons "favFoods" (.ocons "american" (.str MagicDeleteString)
    (.ocons "visits" (.str MagicIncrementString) .onil)) .onil

/-- Registry demo state: one subscriber on fingerprint `"q"`. -/
def demoS1 : LiftState Nat := (subscribeOp "q" false (initLiftState Nat)).1

/-- Registry demo state: a backend event delivered value `7` on `"q"`. -/
def demoS2 : LiftState Nat := eventOp "q" 7 demoS1

/-- Registry demo state: a second subscriber joined `"q"` after the event. -/
def demoS3 : LiftState Nat := (subscribeOp "q" false demoS2).1

/-- Two queries equal up to the payload of a structurally distinct `startAt`
cursor object with the same identifier. -/
def demoQ1 : SimpleQueryQ :=
  ⟨some 10, none, none, some [.obj "p1" (.str "x")], none, none, none, none⟩

/-- See `demoQ1`. -/
def demoQ2 : SimpleQueryQ :=
  ⟨some 10, none, none, some [.obj "p1" (.str "y")], none, none, none, none⟩

/-- Bulk-get demo: three documents arriving out of id order. -/
def demoArrived : List SnapDoc := [⟨"a", .onil⟩, ⟨"c", .onil⟩, ⟨"b", .onil⟩]

-- ## Theorems

-- ### Basic lemmas about field and path operations

theorem getF_putF_self (v : JsonVal) (key : String) (nv : JsonVal) :
    getF (putF v key nv) key = some nv := by
  induction v with
  | ocons k c r ihc ihr =>
    by_cases h : k = key
    · simp [putF, h, getF]
    · simp [putF, h, getF, ihr]
  | str s => simp [putF, getF]
  | num n => simp [putF, getF]
  | bool b => simp [putF, getF]
  | onil => simp [putF, getF]

theorem getF_putF_other (v : JsonVal) (key key' : String) (nv : JsonVal)
    (h : key' ≠ key) : getF (putF v key nv) key' = getF v key' := by
  induction v with
  | ocons k c r ihc ihr =>
    by_cases hk : k = key
    · subst hk
      simp only [putF, if_pos rfl, getF]
      rw [if_neg (Ne.symm h), if_neg (Ne.symm h)]
    · simp only [putF, if_neg hk, getF, ihr]
  | str s =>
    simp only [putF, getF]
    rw [if_neg (Ne.symm h)]
  | num n =>
    simp only [putF, getF]
    rw [if_neg (Ne.symm h)]
  | bool b =>
    simp only [putF, getF]
    rw [if_neg (Ne.symm h)]
  | onil =>
    simp only [putF, getF]
    rw [if_neg (Ne.symm h)]

theorem getF_delF_self (v : JsonVal) (key : String) :
    getF (delF v key) key = none := by
  induction v with
  | ocons k c r ihc ihr =>
    by_cases h : k = key
    · simp [delF, h, ihr]
    · simp [delF, h, getF, ihr]
  | str s => simp [delF, getF]
  | num n => simp [delF, getF]
  | bool b => simp [delF, getF]
  | onil => simp [delF, getF]

theorem getF_delF_other (v : JsonVal) (key key' : String) (h : key' ≠ key) :
    getF (delF v key) key' = getF v key' := by
  induction v with
  | ocons k c r ihc ihr =>
    by_cases hk : k = key
    · subst hk
      rw [show delF (JsonVal.ocons k c r) k = delF r k from by simp [delF]]
      simp only [getF, ihr]
      rw [if_neg (Ne.symm h)]
    · simp only [delF, if_neg hk, getF, ihr]
  | str s => simp [delF, getF]
  | num n => simp [delF, getF]
  | bool b => simp [delF, getF]
  | onil => simp [delF, getF]

theorem getF_setF_self (v : JsonVal) (key : String) (nv : Option JsonVal) :
    getF (setF v key nv) key = nv := by
  cases nv with
  | some nv => simpa [setF] using getF_putF_self v key nv
  | none => simpa [setF] using getF_delF_self v key

theorem getF_setF_other (v : JsonVal) (key key' : String) (nv : Option JsonVal)
    (h : key' ≠ key) : getF (setF v key nv) key' = getF v key' := by
  cases nv with
  | some nv => simpa [setF] using getF_putF_other v key key' nv h
  | none => simpa [setF] using getF_delF_other v key key' h

/-- Reading back the freshly written path: a targeted write at a non-empty
key path stores exactly the written value there. -/
theorem getAtPath_setAtKeys_self (doc : JsonVal) (ks : List String) (nv : JsonVal)
    (hne : ks ≠ []) : getAtPath (setAtKeys doc ks (some nv)) ks = some nv := by
  induction ks generalizing doc with
  | nil => exact absurd rfl hne
  | cons k ks ih =>
    cases ks with
    | nil => simp [setAtKeys, getAtPath, getF_setF_self]
    | cons k' ks' =>
      simp only [setAtKeys, getAtPath, getF_putF_self]
      exact ih _ (by simp)

/-- Frame property of targeted writes: any key path that neither extends nor
is extended by the written path reads the same value before and after. -/
theorem getAtPath_setAtKeys_frame (doc : JsonVal) (ks p : List String)
    (nv : Option JsonVal) (h1 : keyPref ks p = false) (h2 : keyPref p ks = false) :
    getAtPath (setAtKeys doc ks nv) p = getAtPath doc p := by
  induction ks generalizing doc p with
  | nil => simp [keyPref] at h1
  | cons k ks ih =>
    cases p with
    | nil => simp [keyPref] at h2
    | cons q p' =>
      by_cases hkq : k = q
      · subst hkq
        simp only [keyPref, decide_eq_true (Eq.refl k), Bool.true_and] at h1 h2
        cases ks with
        | nil => simp [keyPref] at h1
        | cons k' ks' =>
          simp only [setAtKeys, getAtPath, getF_putF_self]
          rw [ih _ _ h1 h2]
          cases hc : getF doc k with
          | some c => simp [hc]
          | none =>
            simp only [hc, Option.getD_none]
            cases p' with
            | nil => simp [keyPref] at h2
            | cons q' p'' => simp [getAtPath, getF]
      · cases ks with
        | nil =>
          simp only [setAtKeys, getAtPath]
          rw [getF_setF_other _ _ _ _ (fun h => hkq h.symm)]
        | cons k' ks' =>
          simp only [setAtKeys, getAtPath]
          rw [getF_putF_other _ _ _ _ (fun h => hkq h.symm)]

-- ### Lemmas about sentinel substitution

theorem writeToJson_liftW (v : JsonVal) : writeToJson (liftW v) = some v := by
  induction v with
  | ocons k c r ihc ihr => simp [liftW, writeToJson, ihc, ihr]
  | str s => simp [liftW, writeToJson]
  | num n => simp [liftW, writeToJson]
  | bool b => simp [liftW, writeToJson]
  | onil => simp [liftW, writeToJson]

theorem getWF_checkForMagicStrings (v : JsonVal) (k : String) :
    getWF (checkForMagicStrings v) k = (getF v k).map checkForMagicStrings := by
  induction v with
  | ocons k' c r ihc ihr =>
    by_cases h : k' = k
    · simp [checkForMagicStrings, getWF, getF, h]
    · simp [checkForMagicStrings, getWF, getF, h, ihr]
  | str s =>
    simp only [checkForMagicStrings]
    split <;> try split
    all_goals simp [getWF, getF]
  | num n => simp [checkForMagicStrings, getWF, getF]
  | bool b => simp [checkForMagicStrings, getWF, getF]
  | onil => simp [checkForMagicStrings, getWF, getF]

/-- Sentinel substitution commutes with path navigation: the substituted
value has, at every key path, exactly the substitution of the original value
at that path (so the walk recurses into nested mappings and preserves the
object structure). -/
theorem getWAtPath_checkForMagicStrings (v : JsonVal) (p : List String) :
    getWAtPath (checkForMagicStrings v) p = (getAtPath v p).map checkForMagicStrings := by
  induction p generalizing v with
  | nil => simp [getWAtPath, getAtPath]
  | cons k ks ih =>
    simp only [getWAtPath, getAtPath, getWF_checkForMagicStrings]
    cases hc : getF v k with
    | some c => simp [ih]
    | none => simp

theorem checkForMagicStrings_of_noSentinels (v : JsonVal)
    (h : noSentinels v = true) : checkForMagicStrings v = liftW v := by
  induction v with
  | ocons k c r ihc ihr =>
    simp only [noSentinels, Bool.and_eq_true] at h
    simp [checkForMagicStrings, liftW, ihc h.1, ihr h.2]
  | str s =>
    simp only [noSentinels, Bool.and_eq_true, decide_eq_true_eq] at h
    simp [checkForMagicStrings, liftW, h.1, h.2]
  | num n => rfl
  | bool b => rfl
  | onil => rfl

theorem generateFirestorePathFromObject_of_firstTrail {ks : List String}
    {v : JsonVal} {w : Bool} {o : JsonVal} (h : FirstTrail ks v w o) :
    ∀ acc, generateFirestorePathFromObject o acc =
      some (String.intercalate "." (acc ++ ks), acc ++ ks, v, w) := by
  induction h with
  | leaf v hv =>
    intro acc
    cases v <;> simp_all [JsonVal.isScalar, generateFirestorePathFromObject]
  | single k sub h ih =>
    intro acc
    simp [generateFirestorePathFromObject, ih (acc ++ [k]), hasMoreFields]
  | multi k sub k2 v2 r2 h ih =>
    intro acc
    simp [generateFirestorePathFromObject, ih (acc ++ [k]), hasMoreFields]

-- Branch characterisations of the registry operations.

theorem subscribeOp_uid {V : Type} (fp : String) (ef : Bool) (s : LiftState V) :
    (subscribeOp fp ef s).2 = s.counter := by
  unfold subscribeOp
  cases hs : s.subs fp <;> rfl

theorem subscribeOp_absent {V : Type} {fp : String} (ef : Bool) {s : LiftState V}
    (hs : s.subs fp = none) :
    (subscribeOp fp ef s).1 =
      ⟨setEntry s.subs fp (some ⟨[s.counter], if ef then [s.counter] else [], none⟩),
       s.counter + 1,
       fun fp' => if fp' = fp then s.live fp' + 1 else s.live fp',
       s.totalSubs + 1, s.unsubCalls, s.deliveries⟩ := by
  unfold subscribeOp
  rw [hs]

theorem subscribeOp_present {V : Type} {fp : String} (ef : Bool) {s : LiftState V}
    {e : SubEntry V} (hs : s.subs fp = some e) :
    (subscribeOp fp ef s).1 =
      ⟨setEntry s.subs fp (some ⟨e.fns ++ [s.counter],
         if ef then e.errorFns ++ [s.counter] else e.errorFns, e.currentValue⟩),
       s.counter + 1, s.live, s.totalSubs, s.unsubCalls,
       match e.currentValue with
       | some v => s.deliveries ++ [(s.counter, v)]
       | none => s.deliveries⟩ := by
  unfold subscribeOp
  rw [hs]

theorem unsubscribeOp_absent {V : Type} {fp : String} (uid : Nat) {s : LiftState V}
    (hs : s.subs fp = none) : unsubscribeOp fp uid s = s := by
  unfold unsubscribeOp
  rw [hs]

theorem unsubscribeOp_last {V : Type} {fp : String} {uid : Nat} {s : LiftState V}
    {e : SubEntry V} (hs : s.subs fp = some e)
    (hemp : (e.fns.filter (fun u => u ≠ uid)).isEmpty = true) :
    unsubscribeOp fp uid s =
      { s with subs := setEntry s.subs fp none,
               live := fun fp' => if fp' = fp then s.live fp' - 1 else s.live fp',
               unsubCalls := s.unsubCalls + 1 } := by
  unfold unsubscribeOp
  rw [hs]
  dsimp only
  rw [if_pos hemp]

theorem unsubscribeOp_keep {V : Type} {fp : String} {uid : Nat} {s : LiftState V}
    {e : SubEntry V} (hs : s.subs fp = some e)
    (hemp : (e.fns.filter (fun u => u ≠ uid)).isEmpty = false) :
    unsubscribeOp fp uid s =
      { s with subs := setEntry s.subs fp (some ⟨e.fns.filter (fun u => u ≠ uid), e.errorFns.filter (fun u => u ≠ uid), e.currentValue⟩) } := by
  unfold unsubscribeOp
  rw [hs]
  dsimp only
  rw [if_neg (by intro hc; rw [hemp] at hc; exact absurd hc (by decide))]

theorem eventOp_absent {V : Type} {fp : String} (v : V) {s : LiftState V}
    (hs : s.subs fp = none) : eventOp fp v s = s := by
  unfold eventOp
  rw [hs]

theorem eventOp_present {V : Type} {fp : String} {v : V} {s : LiftState V}
    {e : SubEntry V} (hs : s.subs fp = some e) :
    eventOp fp v s =
      { s with subs := setEntry s.subs fp (some ⟨e.fns, e.errorFns, some v⟩),
               deliveries := s.deliveries ++ e.fns.map (fun u => (u, v)) } := by
  unfold eventOp
  rw [hs]

theorem stateOK_init (V : Type) : StateOK (initLiftState V) := by
  refine ⟨fun fp => rfl, le_refl 1, ?_, ?_⟩
  · intro d hd
    simp [initLiftState] at hd
  · intro fp e he
    simp [initLiftState] at he

theorem stateOK_step {V : Type} {s t : LiftState V} (hOK : StateOK s)
    (h : LiftStep V s t) : StateOK t := by
  obtain ⟨hlive, hcnt, hdel, hent⟩ := hOK
  cases h with
  | subscribe fp ef =>
    cases hs : s.subs fp with
    | none =>
      rw [subscribeOp_absent ef hs]
      refine ⟨?_, ?_, ?_, ?_⟩
      · intro fp'
        by_cases hfp : fp' = fp
        · subst hfp
          simp [setEntry, hlive fp', hs]
        · simp [setEntry, hfp, hlive fp']
      · exact Nat.le_succ_of_le hcnt
      · intro d hd
        exact Nat.lt_succ_of_lt (hdel d hd)
      · intro fp' e' he'
        simp only [setEntry] at he'
        by_cases hfp : fp' = fp
        · rw [if_pos hfp] at he'
          have he'' := Option.some.inj he'
          subst he''
          refine ⟨?_, ?_⟩
          · intro u hu
            simp only [List.mem_singleton] at hu
            subst hu
            exact Nat.lt_succ_self _
          · intro u hu
            cases ef with
            | true =>
              simp at hu
              subst hu
              exact Nat.lt_succ_self _
            | false => simp at hu
        · rw [if_neg hfp] at he'
          have hb := hent fp' e' he'
          exact ⟨fun u hu => Nat.lt_succ_of_lt (hb.1 u hu),
                 fun u hu => Nat.lt_succ_of_lt (hb.2 u hu)⟩
    | some e =>
      rw [subscribeOp_present ef hs]
      refine ⟨?_, ?_, ?_, ?_⟩
      · intro fp'
        by_cases hfp : fp' = fp
        · subst hfp
          simp [setEntry, hlive fp', hs]
        · simp [setEntry, hfp, hlive fp']
      · exact Nat.le_succ_of_le hcnt
      · intro d hd
        cases hcv : e.currentValue with
        | none =>
          rw [hcv] at hd
          dsimp only at hd
          exact Nat.lt_succ_of_lt (hdel d hd)
        | some v =>
          rw [hcv] at hd
          dsimp only at hd
          rw [List.mem_append] at hd
          cases hd with
          | inl hd => exact Nat.lt_succ_of_lt (hdel d hd)
          | inr hd =>
            simp only [List.mem_singleton] at hd
            subst hd
            exact Nat.lt_succ_self _
      · intro fp' e' he'
        simp only [setEntry] at he'
        by_cases hfp : fp' = fp
        · rw [if_pos hfp] at he'
          have he'' := Option.some.inj he'
          subst he''
          have hb := hent fp e hs
          refine ⟨?_, ?_⟩
          · intro u hu
            rw [List.mem_append] at hu
            cases hu with
            | inl hu => exact Nat.lt_succ_of_lt (hb.1 u hu)
            | inr hu =>
              simp only [List.mem_singleton] at hu
              subst hu
              exact Nat.lt_succ_self _
          · intro u hu
            cases ef with
            | true =>
              simp at hu
              cases hu with
              | inl hu => exact Nat.lt_succ_of_lt (hb.2 u hu)
              | inr hu =>
                subst hu
                exact Nat.lt_succ_self _
            | false =>
              simp at hu
              exact Nat.lt_succ_of_lt (hb.2 u hu)
        · rw [if_neg hfp] at he'
          have hb := hent fp' e' he'
          exact ⟨fun u hu => Nat.lt_succ_of_lt (hb.1 u hu),
                 fun u hu => Nat.lt_succ_of_lt (hb.2 u hu)⟩
  | unsubscribe fp uid =>
    cases hs : s.subs fp with
    | none =>
      rw [unsubscribeOp_absent uid hs]
      exact ⟨hlive, hcnt, hdel, hent⟩
    | some e =>
      cases hemp : (e.fns.filter (fun u => u ≠ uid)).isEmpty with
      | true =>
        rw [unsubscribeOp_last hs hemp]
        refine ⟨?_, hcnt, hdel, ?_⟩
        · intro fp'
          by_cases hfp : fp' = fp
          · subst hfp
            simp [setEntry, hlive fp', hs]
          · simp [setEntry, hfp, hlive fp']
        · intro fp' e' he'
          simp only [setEntry] at he'
          by_cases hfp : fp' = fp
          · rw [if_pos hfp] at he'
            cases he'
          · rw [if_neg hfp] at he'
            exact hent fp' e' he'
      | false =>
        rw [unsubscribeOp_keep hs hemp]
        refine ⟨?_, hcnt, hdel, ?_⟩
        · intro fp'
          by_cases hfp : fp' = fp
          · subst hfp
            simp [setEntry, hlive fp', hs]
          · simp [setEntry, hfp, hlive fp']
        · intro fp' e' he'
          simp only [setEntry] at he'
          by_cases hfp : fp' = fp
          · rw [if_pos hfp] at he'
            have he'' := Option.some.inj he'
            subst he''
            have hb := hent fp e hs
            exact ⟨fun u hu => hb.1 u (List.mem_of_mem_filter hu),
                   fun u hu => hb.2 u (List.mem_of_mem_filter hu)⟩
          · rw [if_neg hfp] at he'
            exact hent fp' e' he'
  | event fp v =>
    cases hs : s.subs fp with
    | none =>
      rw [eventOp_absent v hs]
      exact ⟨hlive, hcnt, hdel, hent⟩
    | some e =>
      rw [eventOp_present hs]
      refine ⟨?_, hcnt, ?_, ?_⟩
      · intro fp'
        by_cases hfp : fp' = fp
        · subst hfp
          simp [setEntry, hlive fp', hs]
        · simp [setEntry, hfp, hlive fp']
      · intro d hd
        simp only [List.mem_append] at hd
        cases hd with
        | inl hd => exact hdel d hd
        | inr hd =>
          rw [List.mem_map] at hd
          obtain ⟨u, hu, huv⟩ := hd
          have := (hent fp e hs).1 u hu
          subst huv
          simpa using this
      · intro fp' e' he'
        simp only [setEntry] at he'
        by_cases hfp : fp' = fp
        · rw [if_pos hfp] at he'
          have he'' := Option.some.inj he'
          subst he''
          have hb := hent fp e hs
          exact ⟨hb.1, hb.2⟩
        · rw [if_neg hfp] at he'
          exact hent fp' e' he'

theorem stateOK_reachable {V : Type} {s : LiftState V} (h : ReachableState V s) :
    StateOK s := by
  induction h with
  | refl => exact stateOK_init V
  | tail hsteps hstep ih => exact stateOK_step ih hstep

-- ### Claim theorems

/-- C8: for every shape-object whose levels each have exactly one key, the
path resolver returns the dotted concatenation of the traversed keys down to
the first scalar/boolean leaf (`FirstTrail ks v false o`); for a shape-object
with more than one key at some level it does not throw — the result is still
`some`, the warning flag is set, and only the first key in enumeration order
is followed (`FirstTrail ks v true o`). -/
theorem C8_path_resolver {o : JsonVal} {ks : List String} {v : JsonVal} {w : Bool}
    (h : FirstTrail ks v w o) :
    generateFirestorePathFromObject o [] = some (String.intercalate "." ks, ks, v, w) := by
  simpa using generateFirestorePathFromObject_of_firstTrail h []

/-- Witness for C8 at the unary shape `{cat: {dog: {worm: 5}}}` (the demo of
the sources) and at a two-key shape whose first key is followed with the
warning flag set. -/
theorem C8_path_resolver_witness :
    generateFirestorePathFromObject
        (.ocons "cat" (.ocons "dog" (.ocons "worm" (.num 5) .onil) .onil) .onil) [] =
      some (String.intercalate "." ["cat", "dog", "worm"], ["cat", "dog", "worm"], .num 5, false) ∧
    generateFirestorePathFromObject
        (.ocons "a" (.ocons "b" (.bool true) .onil) (.ocons "c" (.num 1) .onil)) [] =
      some (String.intercalate "." ["a", "b"], ["a", "b"], .bool true, true) :=
  ⟨C8_path_resolver
      (.single "cat" _ (.single "dog" _ (.single "worm" _ (.leaf _ rfl)))),
   C8_path_resolver
      (.multi "a" _ "c" (.num 1) .onil (.single "b" _ (.leaf _ rfl)))⟩

/-- C2: sentinel substitution; the engine is modelled from the spec
(`checkForMagicStrings`).  Substitution commutes with path navigation (so it
recurses into nested mappings preserving structure), a delete-sentinel leaf
becomes a field-delete directive, an increment-sentinel leaf becomes an
increment-by-1 directive, all other scalar leaves are unchanged, and a bare
top-level scalar sentinel is substituted directly (the first two conjuncts
are exactly the bare top-level cases). -/
theorem C2_sentinel_substitution :
    (∀ v p, getWAtPath (checkForMagicStrings v) p = (getAtPath v p).map checkForMagicStrings) ∧
    checkForMagicStrings (.str MagicDeleteString) = .wdel ∧
    checkForMagicStrings (.str MagicIncrementString) = .winc 1 ∧
    (∀ s, s ≠ MagicDeleteString → s ≠ MagicIncrementString →
      checkForMagicStrings (.str s) = .str s) ∧
    (∀ n, checkForMagicStrings (.num n) = .num n) ∧
    (∀ b, checkForMagicStrings (.bool b) = .bool b) := by
  refine ⟨getWAtPath_checkForMagicStrings, by simp [checkForMagicStrings], ?_, ?_, ?_, ?_⟩
  · simp [checkForMagicStrings, MagicIncrementString, MagicDeleteString]
  · intro s h1 h2
    simp [checkForMagicStrings, h1, h2]
  · intro n; rfl
  · intro b; rfl

/-- Witness for C2 on the demo payload: the delete-sentinel leaf at
`favFoods.american` becomes a delete directive, the increment-sentinel leaf
at `favFoods.visits` becomes an increment-by-1 directive, and an ordinary
string leaf is untouched. -/
theorem C2_sentinel_substitution_witness :
    getWAtPath (checkForMagicStrings demoPayload) ["favFoods", "american"] = some .wdel ∧
    getWAtPath (checkForMagicStrings demoPayload) ["favFoods", "visits"] = some (.winc 1) ∧
    checkForMagicStrings (.str "burger") = .str "burger" := by
  refine ⟨?_, ?_, C2_sentinel_substitution.2.2.2.1 "burger" (by decide) (by decide)⟩
  · rw [C2_sentinel_substitution.1 demoPayload ["favFoods", "american"]]
    decide
  · rw [C2_sentinel_substitution.1 demoPayload ["favFoods", "visits"]]
    decide

theorem applyFieldWrite_liftW (doc : JsonVal) (ks : List String) (v : JsonVal) :
    applyFieldWrite doc ks (liftW v) = .ok (setAtKeys doc ks (some v)) := by
  have h : writeToJson (liftW v) = some v := writeToJson_liftW v
  cases v with
  | str s => simp [applyFieldWrite, liftW, writeToJson]
  | num n => simp [applyFieldWrite, liftW, writeToJson]
  | bool b => simp [applyFieldWrite, liftW, writeToJson]
  | onil => simp [applyFieldWrite, liftW, writeToJson]
  | ocons k c r =>
    rw [show liftW (JsonVal.ocons k c r) = .ocons k (liftW c) (liftW r) from rfl] at h ⊢
    simp [applyFieldWrite, h]

/-- C1: a `setPath` task committed through the batch compiler performs a
single targeted field write: the dotted path is resolved from the
path-shape, the replacement sub-value is extracted from the companion
value-object and passed through sentinel substitution (here sentinel-free,
so substitution is the identity), the previous value at the path is fully
replaced by it — no merge at or below the path — and every other key path of
the document, as well as every other document, is untouched.  The `setPath`
arm of the compiler is modelled from the spec (`compileSetPath`). -/
theorem C1_setPath_targeted_replace
    {store : Store} {c i : String} {pathObj value doc : JsonVal}
    {ks : List String} {leaf : JsonVal} {w : Bool} {sub : JsonVal}
    (hid : ¬i = "")
    (hdoc : store c i = some doc)
    (hpath : FirstTrail ks leaf w pathObj)
    (hks : ks ≠ [])
    (hsub : getAtPath value ks = some sub)
    (hclean : noSentinels sub = true) :
    executeBatchTotal [BatchTask.setPath c i pathObj value] store =
      (store.upd c i (some (setAtKeys doc ks (some sub))), .ok emptyTaskResult) ∧
    getAtPath (setAtKeys doc ks (some sub)) ks = some sub ∧
    (∀ p, keyPref ks p = false → keyPref p ks = false →
      getAtPath (setAtKeys doc ks (some sub)) p = getAtPath doc p) ∧
    (∀ c' i', (c' = c ∧ i' = i → False) →
      store.upd c i (some (setAtKeys doc ks (some sub))) c' i' = store c' i') := by
  have hres := generateFirestorePathFromObject_of_firstTrail hpath []
  simp only [List.nil_append] at hres
  have hcsp : compileSetPath c i pathObj value =
      .ok (.setField c i ks (checkForMagicStrings sub)) := by
    unfold compileSetPath
    rw [hres]
    simp [hsub]
  have hcomp : compileTasks [BatchTask.setPath c i pathObj value] =
      .ok [WriteOp.setField c i ks (checkForMagicStrings sub)] := by
    simp only [compileTasks, BatchTask.taskId, if_neg hid, compileNonEmpty, hcsp]
    rfl
  have hsubw : checkForMagicStrings sub = liftW sub :=
    checkForMagicStrings_of_noSentinels sub hclean
  have hop : applyOp store (.setField c i ks (liftW sub)) =
      .ok (store.upd c i (some (setAtKeys doc ks (some sub)))) := by
    simp [applyOp, hdoc, applyFieldWrite_liftW, Except.map]
  have hcommit : commitOps [WriteOp.setField c i ks (liftW sub)] store =
      .ok (store.upd c i (some (setAtKeys doc ks (some sub)))) := by
    simp only [commitOps, hop]
    rfl
  have hexec : executeBatch [BatchTask.setPath c i pathObj value] store =
      .ok (store.upd c i (some (setAtKeys doc ks (some sub))), emptyTaskResult) := by
    unfold executeBatch
    rw [hcomp, hsubw]
    show Except.map (fun a => (a, emptyTaskResult))
      (commitOps [WriteOp.setField c i ks (liftW sub)] store) = _
    rw [hcommit]
    rfl
  refine ⟨?_, getAtPath_setAtKeys_self doc ks sub hks,
          fun p h1 h2 => getAtPath_setAtKeys_frame doc ks p (some sub) h1 h2, ?_⟩
  · unfold executeBatchTotal
    rw [hexec]
  · intro c' i' hne
    unfold Store.upd
    rw [if_neg]
    intro hc
    rw [Bool.and_eq_true, decide_eq_true_eq, decide_eq_true_eq] at hc
    exact hne hc

/-- Witness for C1 on the test scenario: replacing `favFoods` of person `p4`
with `{american: "yummy hot dog", asian: "yummy sushi"}` commits, the whole
`favFoods` object equals the replacement afterwards (the previously existing
`italian` sub-field is gone), and the sibling field `name` is untouched. -/
theorem C1_setPath_targeted_replace_witness :
    (executeBatchTotal [BatchTask.setPath "person" "p4" favPathObj favValue] demoStore).2 =
      .ok emptyTaskResult ∧
    getAtPath (setAtKeys demoDoc ["favFoods"] (some favReplacement)) ["favFoods"] =
      some favReplacement ∧
    getAtPath (setAtKeys demoDoc ["favFoods"] (some favReplacement)) ["name"] =
      some (.str "Elaine") ∧
    getAtPath (setAtKeys demoDoc ["favFoods"] (some favReplacement)) ["favFoods", "italian"] =
      none := by
  have h := @C1_setPath_targeted_replace demoStore "person" "p4" favPathObj favValue
    demoDoc ["favFoods"] (.bool true) false favReplacement
    (by decide) (by decide)
    (.single "favFoods" _ (.leaf _ rfl))
    (by decide) (by decide) (by decide)
  refine ⟨?_, h.2.1, ?_, ?_⟩
  · rw [h.1]
  · exact (h.2.2.1 ["name"] (by decide) (by decide)).trans (by decide)
  · decide

theorem compileTasks_cons_of_nonEmpty (t : BatchTask) (ts : List BatchTask)
    (h : t.isEmptyTask = false) :
    compileTasks (t :: ts) =
      if t.taskId = "" then
        .error ("Unable to process item. Lacks an id. Collection: " ++ t.coll)
      else
        (do
          let op ← compileNonEmpty t
          let ops ← compileTasks ts
          pure (op :: ops)) := by
  cases t with
  | empty c i => simp [BatchTask.isEmptyTask] at h
  | add c i d => rfl
  | shallowUpdate c i d => rfl
  | update c i d => rfl
  | setPath c i po v => rfl
  | del c i => rfl

theorem compileTasks_error_of_missing_id :
    ∀ (ts : List BatchTask), (∃ t ∈ ts, t.isEmptyTask = false ∧ t.taskId = "") →
      ∃ e, compileTasks ts = .error e := by
  intro ts
  induction ts with
  | nil =>
    rintro ⟨t, ht, -⟩
    simp at ht
  | cons t' rest ih =>
    rintro ⟨t, hmem, hne, hid⟩
    rw [List.mem_cons] at hmem
    cases hmem with
    | inl heq =>
      subst heq
      rw [compileTasks_cons_of_nonEmpty t rest hne, if_pos hid]
      exact ⟨_, rfl⟩
    | inr hmem =>
      cases h' : t'.isEmptyTask with
      | true =>
        have hskip : compileTasks (t' :: rest) = compileTasks rest := by
          cases t' <;> simp_all [BatchTask.isEmptyTask, compileTasks]
        rw [hskip]
        exact ih ⟨t, hmem, hne, hid⟩
      | false =>
        rw [compileTasks_cons_of_nonEmpty t' rest h']
        by_cases hid' : t'.taskId = ""
        · rw [if_pos hid']
          exact ⟨_, rfl⟩
        · rw [if_neg hid']
          obtain ⟨e, he⟩ := ih ⟨t, hmem, hne, hid⟩
          cases hop : compileNonEmpty t' with
          | error e' => exact ⟨e', rfl⟩
          | ok op => exact ⟨e, by rw [he]; rfl⟩

theorem executeBatch_ok_shape {ts : List BatchTask} {s : Store} {p : Store × BatchTask}
    (h : executeBatch ts s = .ok p) : p.2 = emptyTaskResult := by
  unfold executeBatch at h
  cases hc : compileTasks ts with
  | error e =>
    rw [hc] at h
    exact Except.noConfusion h
  | ok ops =>
    rw [hc] at h
    have h2 : (fun a => (a, emptyTaskResult)) <$> commitOps ops s = .ok p := h
    cases hcm : commitOps ops s with
    | error e =>
      rw [hcm] at h2
      exact Except.noConfusion h2
    | ok s' =>
      rw [hcm] at h2
      have h3 : (s', emptyTaskResult) = p := Except.ok.inj h2
      rw [← h3]

/-- C5: the batch compiler skips `empty` tasks; any non-empty task lacking
an id makes the whole call throw with the backend store unchanged (nothing
is committed); and every call either throws (store unchanged) or returns the
uniform empty-task value for the fully committed batch — there is no
partial-success return shape. -/
theorem C5_executeBatch_atomic :
    ∀ (ts : List BatchTask) (s : Store) (c i : String),
      executeBatchTotal (.empty c i :: ts) s = executeBatchTotal ts s ∧
      ((∃ t ∈ ts, t.isEmptyTask = false ∧ t.taskId = "") →
        ∃ e, executeBatchTotal ts s = (s, .error e)) ∧
      ((∃ e, executeBatchTotal ts s = (s, .error e)) ∨
        ∃ s', executeBatchTotal ts s = (s', .ok emptyTaskResult)) := by
  intro ts s c i
  refine ⟨?_, ?_, ?_⟩
  · unfold executeBatchTotal executeBatch
    rw [show compileTasks (.empty c i :: ts) = compileTasks ts from rfl]
  · intro hex
    obtain ⟨e, he⟩ := compileTasks_error_of_missing_id ts hex
    refine ⟨e, ?_⟩
    unfold executeBatchTotal executeBatch
    rw [he]
    rfl
  · unfold executeBatchTotal
    cases hr : executeBatch ts s with
    | error e => exact .inl ⟨e, rfl⟩
    | ok p =>
      right
      have h2 := executeBatch_ok_shape hr
      exact ⟨p.1, by rw [← h2]⟩

/-- Witness for C5: a batch holding an `empty` task, an `add` and a `delete`
commits and returns the empty task; the same batch with an id-less `update`
task inserted throws and leaves the store untouched. -/
theorem C5_executeBatch_atomic_witness :
    executeBatchTotal [.empty "empty" "", .add "person" "p9" demoDoc, .del "person" "p4"]
        demoStore =
      executeBatchTotal [.add "person" "p9" demoDoc, .del "person" "p4"] demoStore ∧
    (executeBatchTotal [.add "person" "p9" demoDoc, .update "person" "" demoPayload]
        demoStore).1 "person" "p4" = demoStore "person" "p4" ∧
    (∃ e, executeBatchTotal [.add "person" "p9" demoDoc, .update "person" "" demoPayload]
        demoStore = (demoStore, .error e)) := by
  have h1 := (C5_executeBatch_atomic [.add "person" "p9" demoDoc, .del "person" "p4"]
    demoStore "empty" "").1
  have h2 := (C5_executeBatch_atomic [.add "person" "p9" demoDoc, .update "person" "" demoPayload]
    demoStore "empty" "").2.1
    ⟨.update "person" "" demoPayload, by simp, by decide, by decide⟩
  obtain ⟨e, he⟩ := h2
  exact ⟨h1, by rw [he], ⟨e, he⟩⟩

/-- C7 counterexample: the claim says the continuation trigger is the
"requested (or, when unspecified, the default) limit".  With `limit`
unspecified the code compares the page size against the request's absent
`limit` field, so a full page of exactly `defaultQueryLimit` documents
yields no continuation query — the claim, as stated, is false here. -/
theorem C7_pagination_counterexample :
    (List.replicate 1000 (SnapDoc.mk "d" .onil)).length = defaultQueryLimit ∧
    queryPaginate ⟨none, none, none, none, none, none, none, none⟩
        (List.replicate 1000 (SnapDoc.mk "d" .onil)) =
      some (List.replicate 1000 (SnapDoc.mk "d" .onil), none) := by
  constructor
  · rw [List.length_replicate]
    rfl
  · unfold queryPaginate
    rw [if_neg (fun h => Option.noConfusion h)]

/-- C7 (amended): the result of a one-shot fetch carries a continuation
query exactly when the request *specified* a limit and the page's item count
equals it (the unspecified-limit/default case never triggers, see the
counterexample); the continuation is a copy of the request whose
continuation token is the id of the last page item. -/
theorem C7_pagination_amended :
    ∀ (q : SimpleQueryQ) (docs : List SnapDoc) (last : SnapDoc),
      (q.limit = some docs.length → docs.getLast? = some last →
        queryPaginate q docs =
          some (docs, some { q with internalStartAfterDocId := some last.id })) ∧
      (q.limit ≠ some docs.length → queryPaginate q docs = some (docs, none)) := by
  intro q docs last
  constructor
  · intro hl hlast
    unfold queryPaginate
    rw [if_pos hl.symm, hlast]
  · intro hne
    unfold queryPaginate
    rw [if_neg (fun hc => hne hc.symm)]

/-- Witness for C7 (amended): a page of two documents against `limit: 2`
yields a continuation anchored at the last item `"b"`; a page of one
document against `limit: 2` yields none. -/
theorem C7_pagination_amended_witness :
    queryPaginate ⟨some 2, none, none, none, none, none, none, none⟩
        [⟨"a", .onil⟩, ⟨"b", .onil⟩] =
      some ([⟨"a", .onil⟩, ⟨"b", .onil⟩],
        some ⟨some 2, none, none, none, none, none, none, some "b"⟩) ∧
    queryPaginate ⟨some 2, none, none, none, none, none, none, none⟩ [⟨"a", .onil⟩] =
      some ([⟨"a", .onil⟩], none) := by
  constructor
  · exact (C7_pagination_amended ⟨some 2, none, none, none, none, none, none, none⟩
      [⟨"a", .onil⟩, ⟨"b", .onil⟩] ⟨"b", .onil⟩).1 (by decide) (by decide)
  · exact (C7_pagination_amended ⟨some 2, none, none, none, none, none, none, none⟩
      [⟨"a", .onil⟩] ⟨"a", .onil⟩).2 (by decide)

/-- C9 counterexample: an `add` whose schema validation fails throws before
the task is constructed and does not increment `docsWritten`, so "every call
to add … increments the docsWritten stats counter by exactly one" is false
as stated. -/
theorem C9_docsWritten_counterexample :
    (addM "person" true "gen1" false .onil false ⟨0⟩ (fun _ _ => none)).1.docsWritten = 0 ∧
    (addM "person" true "gen1" false .onil false ⟨0⟩ (fun _ _ => none)).2.2 =
      .error "Unable to add item. Schema does not match. Collection: person" := by
  constructor <;> rfl

/-- C9 (amended): every call to `update`, `setPath` or `delete`, and every
`add` call that passes schema validation, increments `docsWritten` by
exactly one at task-construction time — for both values of
`returnBatchTask` and regardless of whether the subsequent batch commit
succeeds or throws (the store and outcome are universally quantified), so
`docsWritten` counts constructed mutation tasks, not documents written. -/
theorem C9_docsWritten_amended :
    ∀ (coll id genId : String) (addIdDefault returnTask : Bool)
      (item pathObj value : JsonVal) (st : WStats) (store : Store),
      (addM coll addIdDefault genId true item returnTask st store).1.docsWritten =
        st.docsWritten + 1 ∧
      (updateM coll id item returnTask st store).1.docsWritten = st.docsWritten + 1 ∧
      (setPathM coll id pathObj value returnTask st store).1.docsWritten = st.docsWritten + 1 ∧
      (deleteM coll id returnTask st store).1.docsWritten = st.docsWritten + 1 := by
  intro coll id genId addIdDefault returnTask item pathObj value st store
  refine ⟨?_, ?_, ?_, ?_⟩ <;> cases returnTask <;> rfl

theorem getOp_ok_eq {arrived : List SnapDoc} {missing : List String} {im : Bool}
    {out : List SnapDoc} (h : getOp arrived missing im = .ok out) :
    out = arrived.insertionSort byIdDesc := by
  unfold getOp at h
  split at h
  · exact Except.noConfusion h
  · exact (Except.ok.inj h).symm

theorem charEqOfToNat {c d : Char} (h : c.toNat = d.toNat) : c = d := by
  have hv : c.val = d.val := UInt32.ext h
  cases c
  cases d
  simp_all

theorem lexLe_antisymm : ∀ {xs ys : List Char},
    lexLe xs ys = true → lexLe ys xs = true → xs = ys := by
  intro xs
  induction xs with
  | nil =>
    intro ys h1 h2
    cases ys with
    | nil => rfl
    | cons y ys' => simp [lexLe] at h2
  | cons x xs ih =>
    intro ys h1 h2
    cases ys with
    | nil => simp [lexLe] at h1
    | cons y ys' =>
      simp only [lexLe] at h1 h2
      by_cases hxy : x.toNat < y.toNat
      · have hyx : ¬y.toNat < x.toNat := by omega
        simp [hxy, hyx] at h2
      · by_cases hyx : y.toNat < x.toNat
        · simp [hxy, hyx] at h1
        · have hx : x = y := charEqOfToNat (by omega)
          subst hx
          rw [ih (by simpa [hxy, hyx] using h1) (by simpa [hxy, hyx] using h2)]

theorem sortedDesc_perm_nodup_eq :
    ∀ {l₁ l₂ : List SnapDoc}, l₁.Perm l₂ → l₁.Pairwise byIdDesc → l₂.Pairwise byIdDesc →
      (l₁.map SnapDoc.id).Nodup → l₁ = l₂ := by
  intro l₁
  induction l₁ with
  | nil =>
    intro l₂ hp _ _ _
    rw [← hp.symm.eq_nil]
  | cons a t ih =>
    intro l₂ hp h₁ h₂ hnd
    cases l₂ with
    | nil => exact absurd hp.eq_nil (by simp)
    | cons b t₂ =>
      have hab : a = b := by
        by_contra hne
        have hbmem : b ∈ a :: t := hp.mem_iff.mpr (List.mem_cons_self b t₂)
        have hamem : a ∈ b :: t₂ := hp.mem_iff.mp (List.mem_cons_self a t)
        have hbt : b ∈ t := by
          rcases List.mem_cons.mp hbmem with h | h
          · exact absurd h.symm hne
          · exact h
        have hat : a ∈ t₂ := by
          rcases List.mem_cons.mp hamem with h | h
          · exact absurd h hne
          · exact h
        have hle1 : byIdDesc a b := (List.pairwise_cons.mp h₁).1 b hbt
        have hle2 : byIdDesc b a := (List.pairwise_cons.mp h₂).1 a hat
        have hideq : a.id = b.id := String.ext (lexLe_antisymm hle2 hle1)
        have hmemid : b.id ∈ t.map SnapDoc.id := List.mem_map_of_mem _ hbt
        rw [List.map_cons, List.nodup_cons] at hnd
        exact hnd.1 (hideq ▸ hmemid)
      subst hab
      have hpt : t.Perm t₂ := hp.cons_inv
      rw [ih hpt (List.Pairwise.of_cons h₁) (List.Pairwise.of_cons h₂)
        (by rw [List.map_cons, List.nodup_cons] at hnd; exact hnd.2)]

/-- C10: a successful bulk `get` returns a permutation of the fetched
documents sorted in descending order of their `id` field; and (for distinct
ids) the output is the same for every arrival order, i.e. independent of
request order and fetch completion order. -/
theorem C10_get_sorted :
    ∀ (arrived : List SnapDoc) (missingIds : List String) (im : Bool) (out : List SnapDoc),
      getOp arrived missingIds im = .ok out →
      out.Perm arrived ∧ out.Pairwise byIdDesc ∧
      (∀ arrived2 out2, arrived2.Perm arrived →
        getOp arrived2 missingIds im = .ok out2 →
        (arrived.map SnapDoc.id).Nodup → out2 = out) := by
  intro arrived missing im out hok
  have hout := getOp_ok_eq hok
  subst hout
  refine ⟨List.perm_insertionSort byIdDesc arrived,
          List.sorted_insertionSort byIdDesc arrived, ?_⟩
  intro a2 o2 hperm hok2 hnd
  have ho2 := getOp_ok_eq hok2
  subst ho2
  have hperm2 : (a2.insertionSort byIdDesc).Perm (arrived.insertionSort byIdDesc) :=
    (List.perm_insertionSort byIdDesc a2).trans
      (hperm.trans (List.perm_insertionSort byIdDesc arrived).symm)
  have hnd2 : ((a2.insertionSort byIdDesc).map SnapDoc.id).Nodup := by
    refine (List.Perm.nodup_iff (List.Perm.map SnapDoc.id ?_)).mpr hnd
    exact (List.perm_insertionSort byIdDesc a2).trans hperm
  exact sortedDesc_perm_nodup_eq hperm2
    (List.sorted_insertionSort byIdDesc a2)
    (List.sorted_insertionSort byIdDesc arrived) hnd2

/-- Witness for C10 on three documents arriving out of id order. -/
theorem C10_get_sorted_witness :
    getOp demoArrived [] false = .ok [⟨"c", .onil⟩, ⟨"b", .onil⟩, ⟨"a", .onil⟩] ∧
    List.Perm [SnapDoc.mk "c" .onil, ⟨"b", .onil⟩, ⟨"a", .onil⟩] demoArrived ∧
    List.Pairwise byIdDesc [SnapDoc.mk "c" .onil, ⟨"b", .onil⟩, ⟨"a", .onil⟩] := by
  have hs : demoArrived.insertionSort byIdDesc =
      [⟨"c", .onil⟩, ⟨"b", .onil⟩, ⟨"a", .onil⟩] := by decide
  have hok : getOp demoArrived [] false =
      .ok [⟨"c", .onil⟩, ⟨"b", .onil⟩, ⟨"a", .onil⟩] := by
    unfold getOp
    rw [if_neg (by decide)]
    rw [hs]
  have h := C10_get_sorted demoArrived [] false _ hok
  exact ⟨hok, h.1, h.2.1⟩

/-- C4: two query descriptions that agree on everything except the identity
(payload) of structurally equal cursor values — cursor objects normalized to
their identifiers by `scrub` — fingerprint identically under any hash, and
the second subscribe call therefore lands on the registry entry of the
first, creating no new backend listener. -/
theorem C4_fingerprint_deduplication :
    ∀ (md5 : String → String) (q1 q2 : SimpleQueryQ),
      q1.limit = q2.limit →
      q1.whereClauses = q2.whereClauses →
      q1.orderBy = q2.orderBy →
      q1.internalStartAfterDocId = q2.internalStartAfterDocId →
      q1.startAt.map (List.map scrub) = q2.startAt.map (List.map scrub) →
      q1.endAt.map (List.map scrub) = q2.endAt.map (List.map scrub) →
      q1.startAfter.map (List.map scrub) = q2.startAfter.map (List.map scrub) →
      q1.endBefore.map (List.map scrub) = q2.endBefore.map (List.map scrub) →
      md5 (stringifyQuery q1) = md5 (stringifyQuery q2) ∧
      (subscribeOp (md5 (stringifyQuery q2)) false
          ((subscribeOp (md5 (stringifyQuery q1)) false (initLiftState Nat)).1)).1.live =
        ((subscribeOp (md5 (stringifyQuery q1)) false (initLiftState Nat)).1).live := by
  intro md5 q1 q2 hl hw ho hi hsa hea hsf heb
  have hsq : stringifyQuery q1 = stringifyQuery q2 := by
    unfold stringifyQuery
    have hrec : ({ q1 with
        endAt := q1.endAt.map (List.map scrub),
        endBefore := q1.endBefore.map (List.map scrub),
        startAt := q1.startAt.map (List.map scrub),
        startAfter := q1.startAfter.map (List.map scrub) } : SimpleQueryQ) =
      { q2 with
        endAt := q2.endAt.map (List.map scrub),
        endBefore := q2.endBefore.map (List.map scrub),
        startAt := q2.startAt.map (List.map scrub),
        startAfter := q2.startAfter.map (List.map scrub) } := by
      cases q1
      cases q2
      simp_all
    rw [hrec]
  constructor
  · rw [hsq]
  · rw [hsq]
    have hs : ((subscribeOp (md5 (stringifyQuery q2)) false (initLiftState Nat)).1).subs
        (md5 (stringifyQuery q2)) = some ⟨[1], [], none⟩ := by
      rw [subscribeOp_absent false rfl]
      simp [setEntry, initLiftState]
    rw [subscribeOp_present false hs]

/-- Witness for C4: `demoQ1` and `demoQ2` differ only in the payload of the
`startAt` cursor object (same id `"p1"`), are distinct queries, and
stringify — hence fingerprint — identically. -/
theorem C4_fingerprint_deduplication_witness :
    stringifyQuery demoQ1 = stringifyQuery demoQ2 ∧ demoQ1 ≠ demoQ2 := by
  have h := C4_fingerprint_deduplication (fun s => s) demoQ1 demoQ2
    rfl rfl rfl rfl (by decide) rfl rfl rfl
  exact ⟨h.1, by decide⟩

/-- C3: in every reachable registry state each fingerprint has at most one
live backend listener (exactly one when its entry exists); a second
subscribe on a present fingerprint registers a callback without touching the
listener set; unsubscribing a handle while other delivery callbacks remain
keeps the entry and the listener; unsubscribing the last one invokes the
stored backend unsubscribe function, deletes the entry and leaves no
listener. -/
theorem C3_subscription_dedup :
    ∀ (V : Type) (s : LiftState V), ReachableState V s →
      (∀ fp, s.live fp ≤ 1) ∧
      (∀ fp, s.live fp = if (s.subs fp).isSome then 1 else 0) ∧
      (∀ (fp : String) (e : SubEntry V) (ef : Bool), s.subs fp = some e →
        (subscribeOp fp ef s).1.live = s.live ∧
        (subscribeOp fp ef s).1.unsubCalls = s.unsubCalls) ∧
      (∀ (fp : String) (uid : Nat) (e : SubEntry V), s.subs fp = some e →
        (e.fns.filter (fun u => u ≠ uid)).isEmpty = false →
        (unsubscribeOp fp uid s).live = s.live ∧
        (unsubscribeOp fp uid s).subs fp =
          some ⟨e.fns.filter (fun u => u ≠ uid),
                e.errorFns.filter (fun u => u ≠ uid), e.currentValue⟩) ∧
      (∀ (fp : String) (uid : Nat) (e : SubEntry V), s.subs fp = some e →
        (e.fns.filter (fun u => u ≠ uid)).isEmpty = true →
        (unsubscribeOp fp uid s).unsubCalls = s.unsubCalls + 1 ∧
        (unsubscribeOp fp uid s).subs fp = none ∧
        (unsubscribeOp fp uid s).live fp = 0) := by
  intro V s hreach
  obtain ⟨hlive, hcnt, hdel, hent⟩ := stateOK_reachable hreach
  refine ⟨?_, hlive, ?_, ?_, ?_⟩
  · intro fp
    rw [hlive fp]
    split <;> omega
  · intro fp e ef hs
    rw [subscribeOp_present ef hs]
    exact ⟨rfl, rfl⟩
  · intro fp uid e hs hne
    rw [unsubscribeOp_keep hs hne]
    exact ⟨rfl, by simp [setEntry]⟩
  · intro fp uid e hs hemp
    rw [unsubscribeOp_last hs hemp]
    refine ⟨rfl, by simp [setEntry], ?_⟩
    show (if fp = fp then s.live fp - 1 else s.live fp) = 0
    rw [if_pos rfl, hlive fp, hs]
    rfl

/-- Witness for C3 on a concrete run: after two subscribers join `"q"` there
is one live listener; removing one keeps it; removing the other detaches it,
deletes the entry and has invoked the backend unsubscribe handle once. -/
theorem C3_subscription_dedup_witness :
    demoS3.live "q" = 1 ∧
    (unsubscribeOp "q" 1 demoS3).live "q" = 1 ∧
    (unsubscribeOp "q" 2 (unsubscribeOp "q" 1 demoS3)).unsubCalls = 1 ∧
    (unsubscribeOp "q" 2 (unsubscribeOp "q" 1 demoS3)).subs "q" = none ∧
    (unsubscribeOp "q" 2 (unsubscribeOp "q" 1 demoS3)).live "q" = 0 := by
  have r1 : ReachableState Nat demoS1 :=
    Relation.ReflTransGen.tail Relation.ReflTransGen.refl
      (LiftStep.subscribe "q" false (initLiftState Nat))
  have r2 : ReachableState Nat demoS2 := r1.tail (LiftStep.event "q" 7 demoS1)
  have r3 : ReachableState Nat demoS3 := r2.tail (LiftStep.subscribe "q" false demoS2)
  have ru1 : ReachableState Nat (unsubscribeOp "q" 1 demoS3) :=
    r3.tail (LiftStep.unsubscribe "q" 1 demoS3)
  have h2 := ((C3_subscription_dedup Nat demoS2 r2).2.2.1 "q" ⟨[1], [], some 7⟩ false
    (by decide)).1
  have h4 := ((C3_subscription_dedup Nat demoS3 r3).2.2.2.1 "q" 1 ⟨[1, 2], [], some 7⟩
    (by decide) (by decide)).1
  have h5 := (C3_subscription_dedup Nat (unsubscribeOp "q" 1 demoS3) ru1).2.2.2.2 "q" 2
    ⟨[2], [], some 7⟩ (by decide) (by decide)
  refine ⟨(congrFun h2 "q").trans (by decide), (congrFun h4 "q").trans ?_, ?_, h5.2.1, h5.2.2⟩
  · exact (congrFun h2 "q").trans (by decide)
  · exact h5.1.trans (by decide)

/-- C6: a subscribe on a fingerprint whose entry already holds a cached last
value delivers that value synchronously, exactly once, to the newly joining
callback only — the appended delivery log entry carries the fresh unique id,
which never occurs in the earlier log (so the cached value precedes any
backend event reaching that callback), pre-existing subscribers receive
nothing during the call, other registry entries are untouched, and
subsequent backend events only append to the log. -/
theorem C6_cached_replay :
    ∀ (V : Type) (s : LiftState V) (fp : String) (e : SubEntry V) (v : V) (ef : Bool),
      ReachableState V s → s.subs fp = some e → e.currentValue = some v →
      (subscribeOp fp ef s).2 = s.counter ∧
      (subscribeOp fp ef s).1.deliveries = s.deliveries ++ [(s.counter, v)] ∧
      (∀ d ∈ s.deliveries, d.1 ≠ s.counter) ∧
      (∀ fp', fp' ≠ fp → (subscribeOp fp ef s).1.subs fp' = s.subs fp') ∧
      (∀ (fp2 : String) (v2 : V), ∃ extra,
        (eventOp fp2 v2 (subscribeOp fp ef s).1).deliveries =
          (subscribeOp fp ef s).1.deliveries ++ extra) := by
  intro V s fp e v ef hreach hs hcv
  obtain ⟨hlive, hcnt, hdel, hent⟩ := stateOK_reachable hreach
  refine ⟨subscribeOp_uid fp ef s, ?_, ?_, ?_, ?_⟩
  · rw [subscribeOp_present ef hs]
    simp [hcv]
  · intro d hd
    exact Nat.ne_of_lt (hdel d hd)
  · intro fp' hfp
    rw [subscribeOp_present ef hs]
    simp [setEntry, hfp]
  · intro fp2 v2
    cases hs2 : (subscribeOp fp ef s).1.subs fp2 with
    | none =>
      refine ⟨[], ?_⟩
      rw [eventOp_absent v2 hs2]
      simp
    | some e2 =>
      refine ⟨e2.fns.map (fun u => (u, v2)), ?_⟩
      rw [eventOp_present hs2]

/-- Witness for C6: the second subscriber joining `"q"` after the event
carrying `7` gets unique id `2`, the log gains exactly the entry `(2, 7)`,
and id `2` received nothing before. -/
theorem C6_cached_replay_witness :
    (subscribeOp "q" false demoS2).2 = 2 ∧
    demoS3.deliveries = [(1, 7), (2, 7)] ∧
    ((1, 7) : Nat × Nat).1 ≠ 2 := by
  have r1 : ReachableState Nat demoS1 :=
    Relation.ReflTransGen.tail Relation.ReflTransGen.refl
      (LiftStep.subscribe "q" false (initLiftState Nat))
  have r2 : ReachableState Nat demoS2 := r1.tail (LiftStep.event "q" 7 demoS1)
  have h := C6_cached_replay Nat demoS2 "q" ⟨[1], [], some 7⟩ 7 false r2
    (by decide) (by decide)
  refine ⟨h.1.trans (by decide), ?_, h.2.2.1 (1, 7) (by decide)⟩
  exact (show demoS3.deliveries = _ from h.2.1).trans (by decide)
